import Mathlib

/-!
Shallow embedding of the resampler core of `src/math/myriotamath.h`:
the 16-bit saturating clip, the circular history buffer `CircularBuffer`,
the resampler geometry of `Resample`, and the continued-fraction rational
approximation.  Machine integers are modelled as `ℤ`/`ℕ` (the `uint64_t`
push counter is modelled as an unbounded `ℕ`; wraparound after `2^64`
pushes is outside the model), and the C `double` quantities are modelled
exactly over `ℚ`.
-/

namespace Myriota

/-- `myriota_clip_16` from `src/math/myriotamath.h`:
clips a signed 32-bit integer into the interval `[-2^15, 2^15)`.
`if (x > (1 << 15) - 1) return (1 << 15) - 1; if (x < -(1 << 15)) return -(1 << 15); return x;` -/
def myriota_clip_16 (x : ℤ) : ℤ :=
  if x > 2 ^ 15 - 1 then 2 ^ 15 - 1
  else if x < -(2 ^ 15) then -(2 ^ 15)
  else x

/-- Modelled from the spec: `myriota_greater_power_of_two` is declared in
`src/math/myriotamath.h` (line 55) with the contract "Returns smallest power
of 2 greater than or equal to this integer", but its implementation is not
under `src/`.  `2 ^ Nat.clog 2 x` is the smallest power of two `≥ x`. -/
def myriota_greater_power_of_two (x : ℕ) : ℕ := 2 ^ Nat.clog 2 x

/-- The `CircularBuffer<T>` class of `src/math/myriotamath.h`:
fields `size`, `mask`, the backing `std::vector<T> buf` (a `List`), and the
`uint64_t` push counter `N` (modelled unbounded). -/
structure CircularBuffer (T : Type) where
  size : ℕ
  mask : ℕ
  buf : List T
  N : ℕ

namespace CircularBuffer

variable {T : Type}

/-- The `CircularBuffer(unsigned int size, T init)` constructor:
`size(myriota_greater_power_of_two(size + 1)), mask(this->size - 1),
buf(this->size, init), N(0)`. -/
def make (s : ℕ) (init : T) : CircularBuffer T :=
  let sz := myriota_greater_power_of_two (s + 1)
  ⟨sz, sz - 1, List.replicate sz init, 0⟩

/-- The physical index `n & mask` used by `push`, `operator()` and `set`.
The C++ `&` acts on the two's-complement `int64_t` representation of `n`,
modelled as the unsigned representative `n mod 2^64` AND-ed with the mask. -/
def slot (cb : CircularBuffer T) (n : ℤ) : ℕ :=
  (n.emod (2 ^ 64)).toNat &&& cb.mask

/-- `push`: `buf[N & mask] = elem; N++;` — always succeeds. -/
def push (cb : CircularBuffer T) (v : T) : CircularBuffer T :=
  { cb with buf := cb.buf.set (cb.slot cb.N) v, N := cb.N + 1 }

/-- A sequence of `push` calls, one per element of `l` (left to right). -/
def pushMany (cb : CircularBuffer T) (l : List T) : CircularBuffer T :=
  l.foldl push cb

/-- `pushed()`: the total number of elements pushed. -/
def pushed (cb : CircularBuffer T) : ℕ := cb.N

/-- `maxn()`: `N - 1` as a signed 64-bit value. -/
def maxn (cb : CircularBuffer T) : ℤ := (cb.N : ℤ) - 1

/-- `minn()`: `N - size` as a signed 64-bit value. -/
def minn (cb : CircularBuffer T) : ℤ := (cb.N : ℤ) - (cb.size : ℤ)

/-- `operator()(n)`: `buf[n & mask]`.  Reading the backing vector is
modelled with `List.get?`; a `some` result means the access was in bounds. -/
def get (cb : CircularBuffer T) (n : ℤ) : Option T :=
  cb.buf.get? (cb.slot n)

/-- The `std::out_of_range` thrown by `set`, carrying the offending index
and the valid window. -/
structure OutOfRange where
  n : ℤ
  lo : ℤ
  hi : ℤ

/-- `set(n, v)`: bounds-checked write,
`if (n >= minn() && n <= maxn()) buf[n & mask] = v; else throw std::out_of_range(...)`.
Failure is modelled with `Except.error`; the original buffer is untouched. -/
def set (cb : CircularBuffer T) (n : ℤ) (v : T) :
    Except OutOfRange (CircularBuffer T) :=
  if cb.minn ≤ n ∧ n ≤ cb.maxn then
    Except.ok { cb with buf := cb.buf.set (cb.slot n) v }
  else
    Except.error ⟨n, cb.minn, cb.maxn⟩

/-- Well-formedness of a buffer state: the capacity is a power of two that
fits the machine word, the mask is `size - 1` and the backing storage has
exactly `size` elements.  `make` establishes it and `push`/`set` keep it. -/
def wf (cb : CircularBuffer T) : Prop :=
  cb.size = 2 ^ Nat.log 2 cb.size ∧ cb.size ≤ 2 ^ 64 ∧
    cb.mask = cb.size - 1 ∧ cb.buf.length = cb.size

instance (cb : CircularBuffer T) : Decidable cb.wf := by
  unfold wf; infer_instance

end CircularBuffer

/-- The `myriota_rational` struct: `long long p` (numerator), `long long q`
(denominator). -/
structure myriota_rational where
  p : ℤ
  q : ℤ
deriving DecidableEq

/-- The rational value `p/q` of a `myriota_rational`. -/
def myriota_rational.val (r : myriota_rational) : ℚ := (r.p : ℚ) / (r.q : ℚ)

/-- Modelled from the spec: `gcd(long long, long long)` is declared in
`src/math/myriotamath.h` (line 264, "Greatest common divisor between two
integers") but implemented outside `src/`.  Modelled as the nonnegative gcd. -/
def gcdLL (a b : ℤ) : ℤ := (Int.gcd a b : ℤ)

/-- Modelled from the spec: `make_myriota_rational` is declared in
`src/math/myriotamath.h` (line 273, "Numerator and denominator of resulting
rational will always be relatively prime") but implemented outside `src/`;
the spec's data model adds "positive denominator".  Modelled as division of
both components by their gcd, with a sign flip for a negative denominator. -/
def make_myriota_rational (a b : ℤ) : myriota_rational :=
  let g := gcdLL a b
  if b < 0 then ⟨-(a / g), -(b / g)⟩ else ⟨a / g, b / g⟩

/-- Modelled from the spec: the loop of `myriota_rational_approximation`
(declared at `src/math/myriotamath.h` line 288, implemented outside `src/`).
Per spec §4.1 it walks the continued-fraction convergents of `x` (recurrence
`pₙ = aₙ·pₙ₋₁ + pₙ₋₂`, `qₙ = aₙ·qₙ₋₁ + qₙ₋₂`), "stopping at the first
convergent that satisfies `|x - p/q| < tolerance`, OR whose denominator would
exceed `maxDenominator`, OR once `convergentIndex` convergents have been
produced — whichever triggers first".  The `Bool` is `true` when the
convergent stream ended (budget exhausted, or `x` reached exactly so no
further convergent exists) without either stop condition having fired. -/
def ratApproxGo (x tol : ℚ) (qmax : ℤ) :
    ℕ → ℚ → ℤ → ℤ → ℤ → ℤ → myriota_rational × Bool
  | 0, _, p1, q1, _, _ => (make_myriota_rational p1 q1, true)
  | fuel + 1, y, p1, q1, p2, q2 =>
    let a : ℤ := ⌊y⌋
    let pn := a * p1 + p2
    let qn := a * q1 + q2
    let c := make_myriota_rational pn qn
    if |x - c.val| < tol then (c, false)
    else if qmax ≤ c.q then (c, false)
    else
      let fr := y - (a : ℚ)
      if fr = 0 then (c, true)
      else ratApproxGo x tol qmax fuel (1 / fr) pn qn p1 q1

/-- Modelled from the spec: `myriota_rational_approximation(x, tol, qmax, k)`.
Starts the convergent recurrence from `p₋₁/q₋₁ = 1/0`, `p₋₂/q₋₂ = 0/1`. -/
def myriota_rational_approximation (x tol : ℚ) (qmax : ℤ) (k : ℕ) :
    myriota_rational × Bool :=
  ratApproxGo x tol qmax k x 1 0 0 1

/-- The constructor-fixed data of `Resample<T>` in `src/math/myriotamath.h`:
the window half-width `W` (a `double`, modelled exactly over `ℚ`) and the
rational approximation `r = p/q` of `out_rate / in_rate`. -/
structure Resample where
  W : ℚ
  p : ℤ
  q : ℤ

namespace Resample

/-- `gamma((1.0 * r.p) / r.q)`. -/
def gamma (g : Resample) : ℚ := (g.p : ℚ) / (g.q : ℚ)

/-- `kappa(fmin(1, gamma))`. -/
def kappa (g : Resample) : ℚ := min 1 g.gamma

/-- `delta(fmax(1, gamma))`. -/
def delta (g : Resample) : ℚ := max 1 g.gamma

/-- `xi(r.p > r.q ? r.p : r.q)`. -/
def xi (g : Resample) : ℤ := if g.p > g.q then g.p else g.q

/-- `gmin(ceil(-xi * W))`. -/
def gmin (g : Resample) : ℤ := ⌈-((g.xi : ℚ) * g.W)⌉

/-- `gmax(floor(xi * W))`. -/
def gmax (g : Resample) : ℤ := ⌊(g.xi : ℚ) * g.W⌋

/-- The size argument `ceil((2 * W) / kappa + 1)` passed to the internal
`CircularBuffer` constructor (converted to `unsigned int`). -/
def requestedSize (g : Resample) : ℕ := (⌈2 * g.W / g.kappa + 1⌉).toNat

/-- The actual capacity `a.size` of the internal history buffer:
the `CircularBuffer` constructor applies
`myriota_greater_power_of_two(requested + 1)`. -/
def capacity (g : Resample) : ℕ :=
  myriota_greater_power_of_two (g.requestedSize + 1)

/-- The internal history buffer built by the `Resample` constructor, after
`N` pushes (each `Resample::push` forwards to `CircularBuffer::push`). -/
def bufferAfter (g : Resample) (l : List ℚ) : CircularBuffer ℚ :=
  l.foldl CircularBuffer.push (CircularBuffer.make g.requestedSize 0)

/-- `Resample::minn()`:
`ceil(gamma * (a.maxn() - a.size) + delta * W)`, where `a.maxn() = N - 1`
and `a.size` is the history-buffer capacity; `N` is the push count. -/
def minn (g : Resample) (N : ℕ) : ℤ :=
  ⌈g.gamma * (((N : ℚ) - 1) - (g.capacity : ℚ)) + g.delta * g.W⌉

/-- `Resample::maxn()`: `floor(gamma * (a.maxn() - 1) - delta * W)`. -/
def maxn (g : Resample) (N : ℕ) : ℤ :=
  ⌊g.gamma * (((N : ℚ) - 1) - 1) - g.delta * g.W⌋

end Resample

/-- The spec's formula (§4.3) for the lower end of the output window:
`minOutputIndex = ceil(gamma·(maxBufferIndex - capacity) + delta·W)`,
written from the spec's words over its own parameters. -/
def spec_minOutputIndex (gamma delta W : ℚ) (maxBufferIndex capacity : ℤ) : ℤ :=
  ⌈gamma * ((maxBufferIndex : ℚ) - (capacity : ℚ)) + delta * W⌉

/-- The spec's formula (§4.3) for the upper end of the output window:
`maxOutputIndex = floor(gamma·(maxBufferIndex - 1) - delta·W)`. -/
def spec_maxOutputIndex (gamma delta W : ℚ) (maxBufferIndex : ℤ) : ℤ :=
  ⌊gamma * ((maxBufferIndex : ℚ) - 1) - delta * W⌋

/-- The spec's formula (§3/§4.2) for the history-buffer capacity:
"capacity = smallest power of two ≥ requested size". -/
def spec_smallestPow2GE (s : ℕ) : ℕ := 2 ^ Nat.clog 2 s

/-- `CircularBuffer.push` leaves the capacity unchanged. -/
theorem CircularBuffer.push_size {T : Type} (cb : CircularBuffer T) (v : T) :
    (cb.push v).size = cb.size := rfl

/-- Folding `push` over a list advances the push counter by the list length. -/
theorem CircularBuffer.foldl_push_N {T : Type} (l : List T)
    (cb : CircularBuffer T) :
    (l.foldl CircularBuffer.push cb).N = cb.N + l.length := by
  induction l generalizing cb with
  | nil => simp
  | cons a t ih =>
    simp only [List.foldl_cons, ih, CircularBuffer.push, List.length_cons]
    omega

/-- Folding `push` over a list leaves the capacity unchanged. -/
theorem CircularBuffer.foldl_push_size {T : Type} (l : List T)
    (cb : CircularBuffer T) :
    (l.foldl CircularBuffer.push cb).size = cb.size := by
  induction l generalizing cb with
  | nil => rfl
  | cons a t ih => simp only [List.foldl_cons, ih]; rfl

/-- The history buffer after `l` pushes has capacity `g.capacity` and push
counter `l.length`. -/
theorem Resample.bufferAfter_spec (g : Resample) (l : List ℚ) :
    (g.bufferAfter l).size = g.capacity ∧ (g.bufferAfter l).N = l.length := by
  constructor
  · rw [Resample.bufferAfter, CircularBuffer.foldl_push_size]
    rfl
  · rw [Resample.bufferAfter, CircularBuffer.foldl_push_N]
    simp [CircularBuffer.make]

/-- C7: for every 32-bit signed integer `x`, `myriota_clip_16` returns a value
in `[-32768, 32767]`; it is the identity inside that interval and saturates
(rather than wraps) above to `32767` and below to `-32768`. -/
theorem c7_clip16_saturates (x : ℤ) :
    (-(2 ^ 15) ≤ myriota_clip_16 x ∧ myriota_clip_16 x ≤ 2 ^ 15 - 1) ∧
    (-(2 ^ 15) ≤ x ∧ x ≤ 2 ^ 15 - 1 → myriota_clip_16 x = x) ∧
    (2 ^ 15 - 1 < x → myriota_clip_16 x = 2 ^ 15 - 1) ∧
    (x < -(2 ^ 15) → myriota_clip_16 x = -(2 ^ 15)) := by
  unfold myriota_clip_16
  split_ifs with h1 h2 <;> refine ⟨by omega, ?_, by omega, by omega⟩ <;> omega

/-- Witness for C7 at the inputs `5`, `40000` and `-40000`. -/
theorem c7_clip16_saturates_witness :
    myriota_clip_16 5 = 5 ∧ myriota_clip_16 40000 = 2 ^ 15 - 1 ∧
      myriota_clip_16 (-40000) = -(2 ^ 15) :=
  ⟨(c7_clip16_saturates 5).2.1 (by decide),
   (c7_clip16_saturates 40000).2.2.1 (by decide),
   (c7_clip16_saturates (-40000)).2.2.2 (by decide)⟩

/-- C1: for every resampler geometry and every history-buffer state reached
by pushing, the output window returned by `Resample::minn`/`Resample::maxn`
equals exactly the spec's formulas
`minOutputIndex = ceil(gamma·(maxBufferIndex - capacity) + delta·W)` and
`maxOutputIndex = floor(gamma·(maxBufferIndex - 1) - delta·W)`, where
`maxBufferIndex` is the buffer's current maximum valid index and `capacity`
its storage size. -/
theorem c1_output_window_matches_spec (g : Resample) (l : List ℚ) :
    g.minn (g.bufferAfter l).N =
      spec_minOutputIndex g.gamma g.delta g.W (g.bufferAfter l).maxn
        ((g.bufferAfter l).size : ℤ) ∧
    g.maxn (g.bufferAfter l).N =
      spec_maxOutputIndex g.gamma g.delta g.W (g.bufferAfter l).maxn := by
  obtain ⟨hsize, -⟩ := g.bufferAfter_spec l
  unfold Resample.minn Resample.maxn spec_minOutputIndex spec_maxOutputIndex
    CircularBuffer.maxn
  rw [hsize]
  constructor
  · congr 1
    push_cast
    ring
  · congr 1
    push_cast
    ring

/-- C3: for every resampler geometry with `W > 0` and rational approximation
`p/q` (`p, q > 0`), the derived constants satisfy exactly `gamma = p/q`,
`kappa = min(1, gamma)`, `delta = max(1, gamma)`, `xi = max(p, q)`,
`gmin = ceil(-xi·W)`, `gmax = floor(xi·W)`, the requested history-buffer
capacity is `ceil(2W/kappa) + 1`, and `gmin ≤ 0 ≤ gmax`. -/
theorem c3_geometry_constants (g : Resample) (hW : 0 < g.W)
    (hp : 0 < g.p) (hq : 0 < g.q) :
    g.gamma = (g.p : ℚ) / (g.q : ℚ) ∧
    g.kappa = min 1 g.gamma ∧
    g.delta = max 1 g.gamma ∧
    g.xi = max g.p g.q ∧
    g.gmin = ⌈-((g.xi : ℚ) * g.W)⌉ ∧
    g.gmax = ⌊(g.xi : ℚ) * g.W⌋ ∧
    (g.requestedSize : ℤ) = ⌈2 * g.W / g.kappa⌉ + 1 ∧
    g.gmin ≤ 0 ∧ 0 ≤ g.gmax := by
  have hgamma : 0 < g.gamma := by
    rw [Resample.gamma]
    positivity
  have hxi : 0 < (g.xi : ℚ) := by
    rw [Resample.xi]
    split_ifs with h
    · exact_mod_cast hp
    · exact_mod_cast hq
  refine ⟨rfl, rfl, rfl, ?_, rfl, rfl, ?_, ?_, ?_⟩
  · rw [Resample.xi]
    rcases le_or_lt g.p g.q with h | h
    · rw [if_neg (not_lt.mpr h), max_eq_right h]
    · rw [if_pos h, max_eq_left h.le]
  · have hkappa : 0 < g.kappa := lt_min one_pos hgamma
    have hpos : (0 : ℚ) < 2 * g.W / g.kappa := by positivity
    have hceil : (0 : ℤ) ≤ ⌈2 * g.W / g.kappa + 1⌉ := by
      have : (0 : ℚ) ≤ 2 * g.W / g.kappa + 1 := by linarith
      exact Int.ceil_nonneg this
    rw [Resample.requestedSize, Int.toNat_of_nonneg hceil, Int.ceil_add_one]
  · rw [Resample.gmin, Int.ceil_le]
    push_cast
    nlinarith
  · rw [Resample.gmax, Int.le_floor]
    push_cast
    positivity

/-- Witness for C3 at `W = 30`, `p/q = 147/320`. -/
theorem c3_geometry_constants_witness :
    Resample.gmin ⟨30, 147, 320⟩ ≤ 0 ∧ (0 : ℤ) ≤ Resample.gmax ⟨30, 147, 320⟩ :=
  ⟨(c3_geometry_constants ⟨30, 147, 320⟩ (by norm_num) (by norm_num)
      (by norm_num)).2.2.2.2.2.2.2.1,
   (c3_geometry_constants ⟨30, 147, 320⟩ (by norm_num) (by norm_num)
      (by norm_num)).2.2.2.2.2.2.2.2⟩

/-- The concrete capacity for requested size `1`:
`myriota_greater_power_of_two(1 + 1) = 2`. -/
theorem CircularBuffer.make_size_one : (CircularBuffer.make 1 (0 : ℚ)).size = 2 := by
  show myriota_greater_power_of_two 2 = 2
  simp [myriota_greater_power_of_two, Nat.clog]

/-- C5 counterexample: for requested size `1` the constructor produces
capacity `2`, not the smallest power of two `≥ 1` (which is `1`): the
constructor applies `myriota_greater_power_of_two(size + 1)`, not
`myriota_greater_power_of_two(size)`. -/
theorem c5_capacity_counterexample :
    (CircularBuffer.make 1 (0 : ℚ)).size ≠ spec_smallestPow2GE 1 := by
  rw [CircularBuffer.make_size_one]
  have h : spec_smallestPow2GE 1 = 1 := by
    simp [spec_smallestPow2GE, Nat.clog]
  rw [h]
  decide

/-- C5 amended: for every requested size `s`, the capacity of a newly
constructed buffer equals the smallest power of two greater than or equal to
`s + 1` (equivalently, strictly greater than `s`). -/
theorem c5_capacity_amended {T : Type} (s : ℕ) (init : T) :
    (CircularBuffer.make s init).size = 2 ^ Nat.clog 2 (s + 1) ∧
    s + 1 ≤ (CircularBuffer.make s init).size ∧
    (∀ j : ℕ, s + 1 ≤ 2 ^ j → (CircularBuffer.make s init).size ≤ 2 ^ j) := by
  refine ⟨rfl, ?_, ?_⟩
  · exact (Nat.le_pow_iff_clog_le one_lt_two).mpr le_rfl
  · intro j hj
    exact Nat.pow_le_pow_right (by omega)
      ((Nat.le_pow_iff_clog_le one_lt_two).mp hj)

/-- Witness for C5 amended at `s = 4` and `j = 3`: the capacity `8` is the
least power of two above `4`. -/
theorem c5_capacity_amended_witness :
    (CircularBuffer.make 4 (0 : ℚ)).size ≤ 2 ^ 3 :=
  (c5_capacity_amended 4 (0 : ℚ)).2.2 3 (by decide)

/-- C2 counterexample: for requested size `1` (capacity `2`) with zero pushes,
the window `[minn(), maxn()] = [-2, -1]` is not empty and its length is the
capacity `2`, not the push count `0`. -/
theorem c2_window_counterexample :
    ¬ (((CircularBuffer.make 1 (0 : ℚ)).pushed = 0 →
          (CircularBuffer.make 1 (0 : ℚ)).maxn <
            (CircularBuffer.make 1 (0 : ℚ)).minn) ∧
       (((CircularBuffer.make 1 (0 : ℚ)).pushed : ℤ) <
            ((CircularBuffer.make 1 (0 : ℚ)).size : ℤ) →
          (CircularBuffer.make 1 (0 : ℚ)).maxn -
              (CircularBuffer.make 1 (0 : ℚ)).minn + 1 =
            ((CircularBuffer.make 1 (0 : ℚ)).pushed : ℤ))) := by
  rintro ⟨h1, -⟩
  have hm := h1 rfl
  rw [CircularBuffer.maxn, CircularBuffer.minn, CircularBuffer.make_size_one] at hm
  norm_num [CircularBuffer.make] at hm

/-- C2 amended: for every requested size and every number `N` of pushes, the
window is `[N - capacity, N - 1]` where capacity is the power-of-two adjusted
size; it always has length exactly `capacity` (so it is never empty and
contains negative indices while `N < capacity`). -/
theorem c2_window_amended {T : Type} (s : ℕ) (init : T) (l : List T) :
    ((CircularBuffer.make s init).pushMany l).pushed = l.length ∧
    ((CircularBuffer.make s init).pushMany l).minn =
      (l.length : ℤ) - (((CircularBuffer.make s init).pushMany l).size : ℤ) ∧
    ((CircularBuffer.make s init).pushMany l).maxn = (l.length : ℤ) - 1 ∧
    ((CircularBuffer.make s init).pushMany l).maxn -
        ((CircularBuffer.make s init).pushMany l).minn + 1 =
      (((CircularBuffer.make s init).pushMany l).size : ℤ) := by
  have hN : ((CircularBuffer.make s init).pushMany l).N = l.length := by
    rw [CircularBuffer.pushMany, CircularBuffer.foldl_push_N]
    simp [CircularBuffer.make]
  refine ⟨hN, ?_, ?_, ?_⟩
  · rw [CircularBuffer.minn, hN]
  · rw [CircularBuffer.maxn, hN]
  · rw [CircularBuffer.maxn, CircularBuffer.minn]
    ring

/-- The constructor establishes well-formedness (for sizes that fit the
machine word). -/
theorem CircularBuffer.wf_make {T : Type} (s : ℕ) (init : T)
    (hs : s + 1 ≤ 2 ^ 64) : (CircularBuffer.make s init).wf := by
  have hsz : (CircularBuffer.make s init).size = 2 ^ Nat.clog 2 (s + 1) := rfl
  refine ⟨?_, ?_, rfl, ?_⟩
  · rw [hsz, Nat.log_pow one_lt_two]
  · rw [hsz]
    exact Nat.pow_le_pow_right (by omega)
      ((Nat.le_pow_iff_clog_le one_lt_two).mp hs)
  · simp [CircularBuffer.make]

/-- `push` preserves well-formedness. -/
theorem CircularBuffer.wf_push {T : Type} (cb : CircularBuffer T) (v : T)
    (h : cb.wf) : (cb.push v).wf := by
  obtain ⟨h1, h2, h3, h4⟩ := h
  exact ⟨h1, h2, h3, by simp [CircularBuffer.push, h4]⟩

/-- A well-formed buffer has positive capacity. -/
theorem CircularBuffer.size_pos {T : Type} (cb : CircularBuffer T)
    (h : cb.wf) : 0 < cb.size := by
  rw [h.1]
  positivity

/-- The physical index is bounded by the mask, hence lies inside the
backing storage of a well-formed buffer. -/
theorem CircularBuffer.slot_lt {T : Type} (cb : CircularBuffer T) (n : ℤ)
    (h : cb.wf) : cb.slot n < cb.buf.length := by
  have h1 : cb.slot n ≤ cb.mask := Nat.and_le_right
  have h2 : 0 < cb.size := cb.size_pos h
  rw [h.2.2.2]
  have h3 : cb.mask = cb.size - 1 := h.2.2.1
  omega

/-- For a well-formed buffer the masked physical index `n & mask` equals
the mathematical residue `n mod size` (two's-complement AND with the
all-ones mask of a power of two agrees with the nonnegative remainder). -/
theorem CircularBuffer.slot_eq_emod {T : Type} (cb : CircularBuffer T)
    (n : ℤ) (h : cb.wf) : cb.slot n = (n.emod (cb.size : ℤ)).toNat := by
  obtain ⟨hpow, hle, hm, -⟩ := h
  set k := Nat.log 2 cb.size with hk
  have hk64 : k ≤ 64 := by
    rw [hpow] at hle
    exact (Nat.pow_le_pow_iff_right one_lt_two).mp hle
  set m : ℕ := (n.emod (2 ^ 64)).toNat with hmdef
  have hm0 : ((m : ℤ)) = n.emod (2 ^ 64) :=
    Int.toNat_of_nonneg (Int.emod_nonneg n (by positivity))
  have hdvd : ((2 : ℤ) ^ k) ∣ (2 : ℤ) ^ 64 := pow_dvd_pow 2 hk64
  have hmod : n.emod ((2 : ℤ) ^ k) = (n.emod (2 ^ 64)).emod (2 ^ k) :=
    (Int.emod_emod_of_dvd n hdvd).symm
  have hand : cb.slot n = m % 2 ^ k := by
    rw [CircularBuffer.slot, hm, hpow]
    exact Nat.and_pow_two_sub_one_eq_mod m k
  rw [hand, hpow]
  have : ((n.emod ((2 ^ k : ℕ) : ℤ))) = ((m % 2 ^ k : ℕ) : ℤ) := by
    push_cast
    rw [hmod, ← hm0]
    rfl
  rw [this]
  exact (Int.toNat_natCast _).symm

/-- C10: every constructed buffer has power-of-two capacity and
`mask = capacity - 1`, so the unchecked read `operator()(n)` is total: for
every integer index `n` (negative or outside the valid window included) the
physical index is exactly `n mod capacity`, lies strictly inside the backing
storage, and the read yields an element (it aliases a live or
default-initialized slot instead of faulting). -/
theorem c10_unchecked_read_total {T : Type} (cb : CircularBuffer T) (n : ℤ)
    (h : cb.wf) :
    (∃ k : ℕ, cb.size = 2 ^ k) ∧
    cb.mask = cb.size - 1 ∧
    cb.slot n = (n.emod (cb.size : ℤ)).toNat ∧
    cb.slot n < cb.buf.length ∧
    (∃ v : T, cb.get n = some v) := by
  have hlt := cb.slot_lt n h
  exact ⟨⟨Nat.log 2 cb.size, h.1⟩, h.2.2.1, cb.slot_eq_emod n h, hlt,
    ⟨cb.buf.get ⟨cb.slot n, hlt⟩, List.get?_eq_get hlt⟩⟩

/-- Witness for C10: the buffer of requested size 2 (capacity 4), read at
the negative index `-5`. -/
theorem c10_unchecked_read_total_witness :
    (CircularBuffer.make 2 (0 : ℚ)).slot (-5) <
      (CircularBuffer.make 2 (0 : ℚ)).buf.length :=
  (c10_unchecked_read_total (CircularBuffer.make 2 (0 : ℚ)) (-5)
    (CircularBuffer.wf_make 2 (0 : ℚ) (by norm_num))).2.2.2.1

/-- C8: `push(v)` always succeeds (it is a total operation in this model),
advances the push count by exactly one, and makes `v` the most recent
element: reading index `maxn()` immediately after the push returns `v`. -/
theorem c8_push_appends {T : Type} (cb : CircularBuffer T) (v : T)
    (h : cb.wf) :
    (cb.push v).pushed = cb.pushed + 1 ∧
    (cb.push v).get ((cb.push v).maxn) = some v := by
  refine ⟨rfl, ?_⟩
  have hmax : (cb.push v).maxn = (cb.N : ℤ) := by
    rw [CircularBuffer.maxn]
    simp [CircularBuffer.push]
  rw [hmax]
  show (cb.buf.set (cb.slot cb.N) v).get? ((cb.push v).slot (cb.N : ℤ)) = some v
  have hslot : (cb.push v).slot (cb.N : ℤ) = cb.slot (cb.N : ℤ) := rfl
  rw [hslot]
  exact List.get?_set_eq_of_lt v (cb.slot_lt (cb.N : ℤ) h)

/-- Witness for C8: pushing `5` into a fresh buffer of requested size 1. -/
theorem c8_push_appends_witness :
    ((CircularBuffer.make 1 (0 : ℚ)).push 5).pushed =
      (CircularBuffer.make 1 (0 : ℚ)).pushed + 1 :=
  (c8_push_appends (CircularBuffer.make 1 (0 : ℚ)) 5
    (CircularBuffer.wf_make 1 (0 : ℚ) (by norm_num))).1

/-- C6: the checked write `set(n, v)` fails with the `OutOfRange` error
(carrying `n` and the window bounds) if and only if `n` is outside
`[minn(), maxn()]`; on failure nothing is mutated (the model returns only
the error), and on success a subsequent read of index `n` returns `v` while
the push count, capacity and mask are unchanged. -/
theorem c6_checked_write {T : Type} (cb : CircularBuffer T) (n : ℤ) (v : T)
    (h : cb.wf) :
    (cb.set n v = Except.error ⟨n, cb.minn, cb.maxn⟩ ↔
      ¬(cb.minn ≤ n ∧ n ≤ cb.maxn)) ∧
    (∀ cb' : CircularBuffer T, cb.set n v = Except.ok cb' →
      cb'.get n = some v ∧ cb'.N = cb.N ∧ cb'.size = cb.size ∧
        cb'.mask = cb.mask) := by
  rw [CircularBuffer.set]
  split_ifs with hin
  · refine ⟨by simp [hin], ?_⟩
    intro cb' hok
    have hcb' : cb' = { cb with buf := cb.buf.set (cb.slot n) v } := by
      exact (Except.ok.injEq _ _).mp hok.symm |>.symm ▸ rfl
    subst hcb'
    refine ⟨?_, rfl, rfl, rfl⟩
    show (cb.buf.set (cb.slot n) v).get? (cb.slot n) = some v
    exact List.get?_set_eq_of_lt v (cb.slot_lt n h)
  · refine ⟨by simp [hin], ?_⟩
    intro cb' hok
    exact absurd hok (by simp)

/-- Witness for C6: on the fresh buffer of requested size 1, writing at the
out-of-window index `5` fails with the `OutOfRange` error. -/
theorem c6_checked_write_witness :
    (CircularBuffer.make 1 (0 : ℚ)).set 5 7 =
      Except.error ⟨5, (CircularBuffer.make 1 (0 : ℚ)).minn,
        (CircularBuffer.make 1 (0 : ℚ)).maxn⟩ :=
  ((c6_checked_write (CircularBuffer.make 1 (0 : ℚ)) 5 7
      (CircularBuffer.wf_make 1 (0 : ℚ) (by norm_num))).1).mpr
    (by
      rw [CircularBuffer.minn, CircularBuffer.maxn, CircularBuffer.make_size_one]
      norm_num [CircularBuffer.make])

/-- C9: for every resampler geometry with a nonnegative rate ratio
(`p ≥ 0`, `q > 0`) and every push count `N`, neither `minn()` nor `maxn()`
decreases across a push (the window, an integer interval, is always
finite); and the window can be empty (`maxn < minn`) before enough history
accumulates, witnessed by the geometry `W = 17/10`, `p/q = 1/4` after 3
pushes. -/
theorem c9_window_monotone (g : Resample) (N : ℕ)
    (hp : 0 ≤ g.p) (hq : 0 < g.q) :
    (g.minn N ≤ g.minn (N + 1) ∧ g.maxn N ≤ g.maxn (N + 1)) ∧
    Resample.maxn ⟨17/10, 1, 4⟩ 3 < Resample.minn ⟨17/10, 1, 4⟩ 3 := by
  have hgamma : 0 ≤ g.gamma := by
    rw [Resample.gamma]
    positivity
  constructor
  · constructor
    · rw [Resample.minn, Resample.minn]
      apply Int.ceil_le_ceil
      have h1 : ((N : ℚ) - 1) - (g.capacity : ℚ) ≤
          (((N + 1 : ℕ) : ℚ) - 1) - (g.capacity : ℚ) := by
        push_cast
        linarith
      nlinarith [mul_le_mul_of_nonneg_left h1 hgamma]
    · rw [Resample.maxn, Resample.maxn]
      apply Int.floor_le_floor
      have h1 : ((N : ℚ) - 1) - 1 ≤ (((N + 1 : ℕ) : ℚ) - 1) - 1 := by
        push_cast
        linarith
      nlinarith [mul_le_mul_of_nonneg_left h1 hgamma]
  · have hcap : Resample.capacity ⟨17/10, 1, 4⟩ = 16 := by
      have hreq : Resample.requestedSize ⟨17/10, 1, 4⟩ = 15 := by
        rw [Resample.requestedSize]
        have : Resample.kappa ⟨17/10, 1, 4⟩ = 1/4 := by
          rw [Resample.kappa, Resample.gamma]
          norm_num
        rw [this]
        have h15 : (⌈2 * (17/10 : ℚ) / (1/4) + 1⌉ : ℤ) = 15 := by
          norm_num [Int.ceil_eq_iff]
        rw [h15]
        rfl
      rw [Resample.capacity, hreq]
      show 2 ^ Nat.clog 2 16 = 16
      simp [Nat.clog]
    have hγ : Resample.gamma ⟨17/10, 1, 4⟩ = 1/4 := by
      rw [Resample.gamma]
      norm_num
    have hδ : Resample.delta ⟨17/10, 1, 4⟩ = 1 := by
      rw [Resample.delta, hγ]
      norm_num
    rw [Resample.minn, Resample.maxn, hcap, hγ, hδ]
    have hmin : (⌈(1/4 : ℚ) * (((3 : ℕ) : ℚ) - 1 - (16 : ℕ)) + 1 * (17/10)⌉ : ℤ) = -1 := by
      norm_num [Int.ceil_eq_iff]
    have hmax : (⌊(1/4 : ℚ) * (((3 : ℕ) : ℚ) - 1 - 1) - 1 * (17/10)⌋ : ℤ) = -2 := by
      norm_num [Int.floor_eq_iff]
    rw [hmin, hmax]
    decide

/-- Witness for C9: monotonicity applied to the geometry `W = 30`,
`p/q = 147/320` at `N = 3`. -/
theorem c9_window_monotone_witness :
    Resample.minn ⟨30, 147, 320⟩ 3 ≤ Resample.minn ⟨30, 147, 320⟩ 4 :=
  (c9_window_monotone ⟨30, 147, 320⟩ 3 (by norm_num) (by norm_num)).1.1

/-- `make_myriota_rational` delivers a fraction in lowest terms whenever its
arguments are not both zero. -/
theorem gcd_make_eq_one (a b : ℤ) (h : ¬(a = 0 ∧ b = 0)) :
    Int.gcd (make_myriota_rational a b).p (make_myriota_rational a b).q = 1 := by
  have hg : 0 < Int.gcd a b := by
    rw [Int.gcd_pos_iff]
    by_contra hc
    push_neg at hc
    exact h ⟨hc.1, hc.2⟩
  rw [make_myriota_rational, gcdLL]
  split_ifs with hb
  · show Int.gcd (-(a / (Int.gcd a b : ℤ))) (-(b / (Int.gcd a b : ℤ))) = 1
    rw [Int.neg_gcd, Int.gcd_neg]
    exact Int.gcd_div_gcd_div_gcd hg
  · show Int.gcd (a / (Int.gcd a b : ℤ)) (b / (Int.gcd a b : ℤ)) = 1
    exact Int.gcd_div_gcd_div_gcd hg

/-- Soundness of the convergent loop: provided consecutive convergents
satisfy the determinant identity `p₁q₂ - p₂q₁ = ±1` (true of the initial
state `1/0`, `0/1` and preserved by the recurrence), the returned fraction
either meets the tolerance, or has denominator at least `qmax`, or the
convergent stream ended (`Bool` result `true`), and it is in lowest terms. -/
theorem ratApproxGo_sound (x tol : ℚ) (qmax : ℤ) (fuel : ℕ) :
    ∀ (y : ℚ) (p1 q1 p2 q2 : ℤ),
      (p1 * q2 - p2 * q1 = 1 ∨ p1 * q2 - p2 * q1 = -1) →
      ((|x - (ratApproxGo x tol qmax fuel y p1 q1 p2 q2).1.val| < tol ∨
          qmax ≤ (ratApproxGo x tol qmax fuel y p1 q1 p2 q2).1.q ∨
          (ratApproxGo x tol qmax fuel y p1 q1 p2 q2).2 = true) ∧
        Int.gcd (ratApproxGo x tol qmax fuel y p1 q1 p2 q2).1.p
          (ratApproxGo x tol qmax fuel y p1 q1 p2 q2).1.q = 1) := by
  induction fuel with
  | zero =>
    intro y p1 q1 p2 q2 hdet
    refine ⟨Or.inr (Or.inr rfl), ?_⟩
    apply gcd_make_eq_one
    rintro ⟨rfl, rfl⟩
    rcases hdet with h | h <;> simp at h
  | succ fuel ih =>
    intro y p1 q1 p2 q2 hdet
    have hdet2 : (⌊y⌋ * p1 + p2) * q1 - p1 * (⌊y⌋ * q1 + q2) = 1 ∨
        (⌊y⌋ * p1 + p2) * q1 - p1 * (⌊y⌋ * q1 + q2) = -1 := by
      rcases hdet with h | h
      · right
        linear_combination -h
      · left
        linear_combination -h
    have hnz : ¬(⌊y⌋ * p1 + p2 = 0 ∧ ⌊y⌋ * q1 + q2 = 0) := by
      rintro ⟨hz1, hz2⟩
      rcases hdet2 with h | h <;> rw [hz1, hz2] at h <;> simp at h
    simp only [ratApproxGo]
    split_ifs with h1 h2 h3
    · exact ⟨Or.inl h1, gcd_make_eq_one _ _ hnz⟩
    · exact ⟨Or.inr (Or.inl h2), gcd_make_eq_one _ _ hnz⟩
    · exact ⟨Or.inr (Or.inr rfl), gcd_make_eq_one _ _ hnz⟩
    · exact ih (1 / (y - (⌊y⌋ : ℚ))) (⌊y⌋ * p1 + p2) (⌊y⌋ * q1 + q2) p1 q1 hdet2

/-- C4: for every (exactly represented) real ratio `x`, tolerance `t`,
denominator bound `qmax` and convergent budget `k`, the fraction `p/q`
returned by `myriota_rational_approximation` satisfies at least one of
`|x - p/q| < t`, `q ≥ qmax`, or the convergent budget was exhausted (the
stream of convergents ended, reported by the `Bool`); and in every case the
result is in lowest terms: `gcd(|p|, q) = 1`. -/
theorem c4_rational_approximation (x tol : ℚ) (qmax : ℤ) (k : ℕ) :
    (|x - (myriota_rational_approximation x tol qmax k).1.val| < tol ∨
      qmax ≤ (myriota_rational_approximation x tol qmax k).1.q ∨
      (myriota_rational_approximation x tol qmax k).2 = true) ∧
    Int.gcd (myriota_rational_approximation x tol qmax k).1.p
      (myriota_rational_approximation x tol qmax k).1.q = 1 :=
  ratApproxGo_sound x tol qmax k x 1 0 0 1 (Or.inl (by ring))

end Myriota
